import Mathlib

/-- Cost record as imported from the CSV (spec section 3). Field names follow
the Cost interface of src/modules/frontend/app/routes/dashboard.tsx, with the
vernr field named verification_key as the spec does. Monetary amounts are
modelled as integers since no claim computes with them. -/
structure CostRecord where
  verification_key : String
  account_number : Nat
  posting_date : String
  registration_date : String
  account_name : String
  ks : Option String
  project_number : Option String
  verification_text : Option String
  transaction_info : Option String
  debit : Int
  credit : Int
deriving DecidableEq

/-- Transaction record: the same fields plus supplier_name (spec section 3 and
the Transaction interface of src/modules/frontend/app/routes/transactions.tsx). -/
structure TransactionRecord where
  verification_key : String
  account_number : Nat
  posting_date : String
  registration_date : String
  account_name : String
  ks : Option String
  project_number : Option String
  verification_text : Option String
  transaction_info : Option String
  debit : Int
  credit : Int
  supplier_name : Option String
deriving DecidableEq

/-- Promotion of a cost record to a transaction record: all shared fields are
copied and supplier_name is left unset (spec 4.3 step 3). -/
def toTransaction (c : CostRecord) : TransactionRecord :=
  { verification_key := c.verification_key
    account_number := c.account_number
    posting_date := c.posting_date
    registration_date := c.registration_date
    account_name := c.account_name
    ks := c.ks
    project_number := c.project_number
    verification_text := c.verification_text
    transaction_info := c.transaction_info
    debit := c.debit
    credit := c.credit
    supplier_name := none }

/-- Auxiliary recursion with explicit fuel, so that the definition is
structurally recursive and reduces inside the kernel on concrete inputs. -/
def leadingDigitAux : Nat → Nat → Nat
  | 0, n => n
  | fuel + 1, n => if n < 10 then n else leadingDigitAux fuel (n / 10)

/-- Leading (most significant) decimal digit of a natural number. -/
def leadingDigit (n : Nat) : Nat := leadingDigitAux n n

/-- Modelled from the spec: the inclusion predicate of the Refinement Engine
(spec 4.3) — the account number starts with digit 4 or higher. The backend
module implementing the predicate is not under src; only its documentation and
frontend callers are. -/
def qualifies (c : CostRecord) : Bool := 4 ≤ leadingDigit c.account_number

/-- Presence of a transaction with the given verification key in the store. -/
def hasKey (ts : List TransactionRecord) (k : String) : Bool :=
  ts.any fun t => t.verification_key == k

/-- Number of documents in the transaction store carrying the given key. -/
def countKey (ts : List TransactionRecord) (k : String) : Nat :=
  (ts.filter fun t => t.verification_key == k).length

/-- Counts returned by the refine operation (spec 4.3). -/
structure RefineResult where
  processed : Nat
  created : Nat
  skipped : Nat
deriving DecidableEq

/-- Modelled from the spec: one step of the Refinement Engine scan (spec 4.3
steps 2 to 4): probe the transaction store for the verification key of the
cost record, insert a promoted copy when the key is absent, and count a skip
when it is present. -/
def refineStep (acc : List TransactionRecord × RefineResult) (c : CostRecord) :
    List TransactionRecord × RefineResult :=
  if hasKey acc.1 c.verification_key then
    (acc.1, ⟨acc.2.processed + 1, acc.2.created, acc.2.skipped + 1⟩)
  else
    (acc.1 ++ [toTransaction c], ⟨acc.2.processed + 1, acc.2.created + 1, acc.2.skipped⟩)

/-- Fold of refineStep over a list of cost records. -/
def runRefine (l : List CostRecord) (acc : List TransactionRecord × RefineResult) :
    List TransactionRecord × RefineResult :=
  l.foldl refineStep acc

/-- Modelled from the spec: the refine operation (POST
/costs/refine-costs-to-transactions, spec 4.3). The cost store is scanned for
records matching the inclusion predicate; each one whose verification key is
absent from the transaction store is promoted and inserted, the others are
skipped. The backend module implementing the operation is not under src. -/
def refineCostsToTransactions (cs : List CostRecord) (ts : List TransactionRecord) :
    List TransactionRecord × RefineResult :=
  runRefine (cs.filter qualifies) (ts, ⟨0, 0, 0⟩)

/-- Duplicate handling policy of the ingest upload (spec 4.2). -/
inductive DuplicateStrategy
  | keep
  | skip
  | replace
deriving DecidableEq

/-- Presence of a cost document with the given key in the cost store. -/
def costHasKey (store : List CostRecord) (k : String) : Bool :=
  store.any fun c => c.verification_key == k

/-- Number of cost documents carrying the given key. -/
def costCountKey (store : List CostRecord) (k : String) : Nat :=
  (store.filter fun c => c.verification_key == k).length

/-- Modelled from the spec: the Duplicate Resolver decision for one parsed
record (spec 4.2). keep always inserts the record as a new document; skip
discards a record whose key already exists; replace overwrites the prior
document in place, keeping its position in the store. The backend module
implementing the resolver is not under src. -/
def resolveOne (strategy : DuplicateStrategy) (store : List CostRecord)
    (r : CostRecord) : List CostRecord :=
  match strategy with
  | .keep => store ++ [r]
  | .skip => if costHasKey store r.verification_key then store else store ++ [r]
  | .replace =>
      if costHasKey store r.verification_key then
        store.map (fun c => if c.verification_key = r.verification_key then r else c)
      else store ++ [r]

/-- Modelled from the spec: ingest persists a parsed record sequence into the
cost store under the chosen duplicate strategy (spec 4.2). -/
def ingest (strategy : DuplicateStrategy) (store : List CostRecord)
    (records : List CostRecord) : List CostRecord :=
  records.foldl (resolveOne strategy) store

/-- Distinct non-empty transaction_info values of the transaction store
(spec 4.4 step 1). -/
def uniqueTexts (ts : List TransactionRecord) : List String :=
  ((ts.filterMap fun t => t.transaction_info).filter fun s => s ≠ "").dedup

/-- Counts and mapping returned by the enrich operation (spec 4.4). -/
structure EnrichResult where
  unique_texts_processed : Nat
  transactions_updated : Nat
  supplier_mappings : List (String × String)
deriving DecidableEq

/-- Bulk update of spec 4.4 step 4: set supplier_name on every transaction
whose transaction_info equals the given text. -/
def bulkUpdateDocs (text name : String) (ts : List TransactionRecord) :
    List TransactionRecord :=
  ts.map fun t =>
    if t.transaction_info = some text then { t with supplier_name := some name } else t

/-- Number of documents a bulk update for the given text touches. -/
def bulkUpdateCount (text : String) (ts : List TransactionRecord) : Nat :=
  (ts.filter fun t => t.transaction_info = some text).length

/-- Modelled from the spec: each (text, supplier) pair returned by the
classifier is applied as one bulk update, and the numbers of updated documents
are accumulated (spec 4.4 step 4). -/
def applyMappings (m : List (String × String)) (ts : List TransactionRecord) :
    List TransactionRecord × Nat :=
  match m with
  | [] => (ts, 0)
  | p :: rest =>
      let r := applyMappings rest (bulkUpdateDocs p.1 p.2 ts)
      (r.1, bulkUpdateCount p.1 ts + r.2)

/-- Modelled from the spec: the enrich operation (POST
/costs/refine-transactions-add-supplier, spec 4.4). The external credential is
an Option; the single batched classifier call is modelled by its outcome, none
for a failed service call and some m for a returned text to supplier mapping.
The first component of the result is the transaction store after the
operation; an error surfaces as HTTP 500 and leaves the store unchanged. The
backend module implementing the operation is not under src. -/
def enrich (apiKey : Option String)
    (classifierResponse : Option (List (String × String)))
    (ts : List TransactionRecord) :
    List TransactionRecord × Except String EnrichResult :=
  match apiKey with
  | none => (ts, .error ("OPENROUTER_API_KEY is not set"))
  | some _ =>
      let texts := uniqueTexts ts
      if texts = [] then (ts, .ok (⟨0, 0, []⟩))
      else
        match classifierResponse with
        | none => (ts, .error ("classification service call failed"))
        | some m =>
            let r := applyMappings m ts
            (r.1, .ok (⟨texts.length, r.2, m⟩))

/-- Effect of one (text, supplier) pair on one document. -/
def docStep (t : TransactionRecord) (p : String × String) : TransactionRecord :=
  if t.transaction_info = some p.1 then { t with supplier_name := some p.2 } else t

/-- Effect of the whole mapping on one document, pairs applied left to right. -/
def docUpdate (m : List (String × String)) (t : TransactionRecord) : TransactionRecord :=
  m.foldl docStep t

/-- Duplicate handling options offered by the import modal radio group
(src/modules/frontend/app/components/import-costs-modal.tsx lines 120 to 137). -/
def modalDuplicateStrategyOptions : List String := ["keep", "skip", "replace"]

/-- Initial duplicate strategy state of the import modal
(import-costs-modal.tsx line 25). -/
def modalInitialDuplicateStrategy : String := "keep"

/-- Strategy form field sent by the modal upload handler: the selected
strategy is appended as duplicate_strategy (import-costs-modal.tsx lines 44
to 46). -/
def modalUploadStrategyField (selected : String) : Option String := some selected

/-- Strategy form field sent by the dashboard upload handler: handleUpload of
the dashboard route appends only the file to the form data, so the
duplicate_strategy field is absent. -/
def dashboardUploadStrategyField : Option String := none

/-- Modelled from the spec: the upload endpoint reads the optional
duplicate_strategy form field, defaulting to keep when the field is absent
(spec section 6); a value outside the three strategies is not valid. The
backend handler is not under src. -/
def parseDuplicateStrategy (field : Option String) : Option DuplicateStrategy :=
  match field with
  | none => some DuplicateStrategy.keep
  | some s =>
      if s = "keep" then some DuplicateStrategy.keep
      else if s = "skip" then some DuplicateStrategy.skip
      else if s = "replace" then some DuplicateStrategy.replace
      else none

/-- Page size used by both the dashboard and the transactions views. -/
def itemsPerPage : Nat := 20

/-- Last server side page, Math.ceil of totalItems over itemsPerPage. -/
def totalPages (totalItems : Nat) : Nat := (totalItems + itemsPerPage - 1) / itemsPerPage

/-- handlePageChange of src/modules/frontend/app/routes/dashboard.tsx lines
105 to 109: the page state is set only when the requested page lies between 1
and the last page, and is left unchanged otherwise. -/
def dashboardHandlePageChange (totalItems : Nat) (currentPage page : Int) : Int :=
  if 1 ≤ page ∧ page ≤ (totalPages totalItems : Int) then page else currentPage

/-- handlePageChange of src/modules/frontend/app/routes/transactions.tsx lines
90 to 94, identical to the dashboard version. -/
def transactionsHandlePageChange (totalItems : Nat) (currentPage page : Int) : Int :=
  if 1 ≤ page ∧ page ≤ (totalPages totalItems : Int) then page else currentPage

/-- Sort direction of the table views. -/
inductive SortDirection
  | asc
  | desc
deriving DecidableEq

/-- Sort state of the table views: a column key and a direction. -/
structure SortConfig where
  key : String
  direction : SortDirection
deriving DecidableEq

/-- handleSort of src/modules/frontend/app/routes/dashboard.tsx lines 96 to
103: the new sort key is the clicked key, the direction flips to desc exactly
when the clicked key is already the sort key in ascending order, and the
current page is reset to 1. Result: (new sort config, new current page). -/
def dashboardHandleSort (current : SortConfig) (key : String) : SortConfig × Int :=
  ({ key := key
     direction :=
       if current.key = key ∧ current.direction = SortDirection.asc then SortDirection.desc
       else SortDirection.asc }, 1)

/-- handleSort of src/modules/frontend/app/routes/transactions.tsx lines 81 to
88, identical to the dashboard version. -/
def transactionsHandleSort (current : SortConfig) (key : String) : SortConfig × Int :=
  ({ key := key
     direction :=
       if current.key = key ∧ current.direction = SortDirection.asc then SortDirection.desc
       else SortDirection.asc }, 1)

/-- Sample cost record used by concrete witness statements. -/
def sampleCost (k : String) (acct : Nat) (info : Option String) : CostRecord :=
  { verification_key := k
    account_number := acct
    posting_date := "2024-01-01"
    registration_date := "2024-01-02"
    account_name := "Office supplies"
    ks := none
    project_number := none
    verification_text := none
    transaction_info := info
    debit := 100
    credit := 0 }

/-- Sample transaction store with two transactions sharing one
transaction_info text, used by concrete witness statements. -/
def tsSwish : List TransactionRecord :=
  [toTransaction (sampleCost "V1" 4010 (some "SWISH 123456789")),
   toTransaction (sampleCost "V2" 4020 (some "SWISH 123456789"))]

theorem runRefine_nil (acc : List TransactionRecord × RefineResult) :
    runRefine [] acc = acc := rfl

theorem runRefine_cons (c : CostRecord) (l : List CostRecord)
    (acc : List TransactionRecord × RefineResult) :
    runRefine (c :: l) acc = runRefine l (refineStep acc c) := rfl

theorem refineStep_present (ts : List TransactionRecord) (r : RefineResult)
    (c : CostRecord) (h : hasKey ts c.verification_key = true) :
    refineStep (ts, r) c = (ts, ⟨r.processed + 1, r.created, r.skipped + 1⟩) := by
  simp [refineStep, h]

theorem refineStep_absent (ts : List TransactionRecord) (r : RefineResult)
    (c : CostRecord) (h : hasKey ts c.verification_key = false) :
    refineStep (ts, r) c =
      (ts ++ [toTransaction c], ⟨r.processed + 1, r.created + 1, r.skipped⟩) := by
  simp [refineStep, h]

theorem runRefine_processed (l : List CostRecord) :
    ∀ (ts : List TransactionRecord) (r : RefineResult),
    (runRefine l (ts, r)).2.processed = r.processed + l.length := by
  induction l with
  | nil => intro ts r; rfl
  | cons c l ih =>
      intro ts r
      rw [runRefine_cons]
      cases hb : hasKey ts c.verification_key with
      | true =>
          rw [refineStep_present ts r c hb, ih]
          show r.processed + 1 + l.length = r.processed + (l.length + 1)
          omega
      | false =>
          rw [refineStep_absent ts r c hb, ih]
          show r.processed + 1 + l.length = r.processed + (l.length + 1)
          omega

theorem runRefine_created_skipped (l : List CostRecord) :
    ∀ (ts : List TransactionRecord) (r : RefineResult),
    (runRefine l (ts, r)).2.created + (runRefine l (ts, r)).2.skipped =
      r.created + r.skipped + l.length := by
  induction l with
  | nil => intro ts r; rfl
  | cons c l ih =>
      intro ts r
      rw [runRefine_cons]
      cases hb : hasKey ts c.verification_key with
      | true =>
          rw [refineStep_present ts r c hb, ih]
          show r.created + (r.skipped + 1) + l.length = r.created + r.skipped + (l.length + 1)
          omega
      | false =>
          rw [refineStep_absent ts r c hb, ih]
          show r.created + 1 + r.skipped + l.length = r.created + r.skipped + (l.length + 1)
          omega

theorem runRefine_mem (l : List CostRecord) :
    ∀ (ts : List TransactionRecord) (r : RefineResult) (t : TransactionRecord),
    t ∈ (runRefine l (ts, r)).1 → t ∈ ts ∨ ∃ c ∈ l, t = toTransaction c := by
  induction l with
  | nil => intro ts r t h; exact Or.inl h
  | cons c l ih =>
      intro ts r t h
      rw [runRefine_cons] at h
      cases hb : hasKey ts c.verification_key with
      | true =>
          rw [refineStep_present ts r c hb] at h
          rcases ih ts _ t h with h1 | ⟨c2, hc2, ht⟩
          · exact Or.inl h1
          · exact Or.inr ⟨c2, List.mem_cons_of_mem c hc2, ht⟩
      | false =>
          rw [refineStep_absent ts r c hb] at h
          rcases ih _ _ t h with h1 | ⟨c2, hc2, ht⟩
          · rcases List.mem_append.mp h1 with h2 | h2
            · exact Or.inl h2
            · exact Or.inr ⟨c, List.mem_cons_self c l, by simpa using h2⟩
          · exact Or.inr ⟨c2, List.mem_cons_of_mem c hc2, ht⟩

theorem hasKey_append_single (ts : List TransactionRecord) (t : TransactionRecord)
    (k : String) :
    hasKey (ts ++ [t]) k = (hasKey ts k || (t.verification_key == k)) := by
  simp [hasKey, List.any_append]

theorem runRefine_hasKey (l : List CostRecord) :
    ∀ (ts : List TransactionRecord) (r : RefineResult) (k : String),
    hasKey (runRefine l (ts, r)).1 k =
      (hasKey ts k || l.any fun c => c.verification_key == k) := by
  induction l with
  | nil => intro ts r k; simp [runRefine]
  | cons c l ih =>
      intro ts r k
      rw [runRefine_cons]
      cases hb : hasKey ts c.verification_key with
      | true =>
          rw [refineStep_present ts r c hb, ih]
          by_cases hck : c.verification_key = k
          · subst hck
            simp [hb, List.any_cons]
          · have hckb : (c.verification_key == k) = false := by
              simpa using hck
            simp [List.any_cons, hckb]
      | false =>
          rw [refineStep_absent ts r c hb, ih, hasKey_append_single]
          have htx : (toTransaction c).verification_key = c.verification_key := rfl
          simp [htx, List.any_cons, Bool.or_assoc]

theorem runRefine_all_present (l : List CostRecord) :
    ∀ (ts : List TransactionRecord) (r : RefineResult),
    (∀ c ∈ l, hasKey ts c.verification_key = true) →
    runRefine l (ts, r) =
      (ts, ⟨r.processed + l.length, r.created, r.skipped + l.length⟩) := by
  induction l with
  | nil => intro ts r _; simp [runRefine]
  | cons c l ih =>
      intro ts r h
      rw [runRefine_cons,
        refineStep_present ts r c (h c (List.mem_cons_self c l)),
        ih ts _ (fun c2 hc2 => h c2 (List.mem_cons_of_mem c hc2))]
      simp [Prod.mk.injEq, RefineResult.mk.injEq]
      omega

theorem countKey_append_single (ts : List TransactionRecord) (t : TransactionRecord)
    (k : String) :
    countKey (ts ++ [t]) k =
      countKey ts k + (if t.verification_key == k then 1 else 0) := by
  by_cases h : t.verification_key == k <;>
    simp [countKey, List.filter_append, List.filter_cons, h]

theorem hasKey_false_countKey (ts : List TransactionRecord) (k : String)
    (h : hasKey ts k = false) : countKey ts k = 0 := by
  simp only [hasKey, List.any_eq_false] at h
  simp only [countKey, List.length_eq_zero, List.filter_eq_nil_iff]
  intro t ht
  exact h t ht

theorem runRefine_unique (l : List CostRecord) :
    ∀ (ts : List TransactionRecord) (r : RefineResult),
    (∀ k, countKey ts k ≤ 1) → ∀ k, countKey (runRefine l (ts, r)).1 k ≤ 1 := by
  induction l with
  | nil => intro ts r h k; exact h k
  | cons c l ih =>
      intro ts r h k
      rw [runRefine_cons]
      cases hb : hasKey ts c.verification_key with
      | true =>
          rw [refineStep_present ts r c hb]
          exact ih ts _ h k
      | false =>
          rw [refineStep_absent ts r c hb]
          apply ih
          intro k2
          rw [countKey_append_single]
          by_cases hk2 : (toTransaction c).verification_key = k2
          · have hz : countKey ts k2 = 0 := by
              have hc : c.verification_key = k2 := hk2
              rw [← hc]
              exact hasKey_false_countKey ts _ hb
            simp [hz, hk2]
          · have hk2b : (((toTransaction c).verification_key == k2)) = false := by
              simpa using hk2
            simpa [hk2b] using h k2

theorem foldRefine_unique (css : List (List CostRecord)) :
    ∀ ts : List TransactionRecord, (∀ k, countKey ts k ≤ 1) →
    ∀ k, countKey
      (css.foldl (fun acc cs => (refineCostsToTransactions cs acc).1) ts) k ≤ 1 := by
  induction css with
  | nil => intro ts h k; exact h k
  | cons cs css ih =>
      intro ts h k
      exact ih _ (fun k2 => runRefine_unique (cs.filter qualifies) ts ⟨0, 0, 0⟩ h k2) k

/-- C1: after any sequence of refine calls, each possibly seeing a different
cost store (ingest only modifies the cost store, so interleaved ingests only
change which cost list a later refine call reads), the transaction store
holds at most one document per verification key, provided it satisfied this
invariant initially; refine never inserts a transaction whose verification
key already exists in the transaction store. -/
theorem c1_refine_uniqueness (ts : List TransactionRecord)
    (css : List (List CostRecord))
    (h : ∀ k, countKey ts k ≤ 1) (k : String) :
    countKey
      (css.foldl (fun acc cs => (refineCostsToTransactions cs acc).1) ts) k ≤ 1 :=
  foldRefine_unique css ts h k

/-- Witness for C1: two refine calls over concrete cost stores that repeat the
key V1, starting from the empty transaction store. -/
theorem c1_refine_uniqueness_witness :
    countKey
      ([[sampleCost "V1" 4010 none, sampleCost "V1" 4020 none],
        [sampleCost "V1" 4030 none]].foldl
        (fun acc cs => (refineCostsToTransactions cs acc).1) []) "V1" ≤ 1 :=
  c1_refine_uniqueness [] _ (fun _ => Nat.zero_le 1) "V1"

/-- C2: refine is idempotent: a second refine call with no intervening ingest
leaves the transaction store unchanged and returns created 0, the same
processed count as the first call, and a skipped count equal to the first
calls processed count. -/
theorem c2_refine_idempotent (cs : List CostRecord) (ts : List TransactionRecord) :
    (refineCostsToTransactions cs (refineCostsToTransactions cs ts).1).1 =
        (refineCostsToTransactions cs ts).1 ∧
    (refineCostsToTransactions cs (refineCostsToTransactions cs ts).1).2.created = 0 ∧
    (refineCostsToTransactions cs (refineCostsToTransactions cs ts).1).2.skipped =
        (refineCostsToTransactions cs ts).2.processed ∧
    (refineCostsToTransactions cs (refineCostsToTransactions cs ts).1).2.processed =
        (refineCostsToTransactions cs ts).2.processed := by
  have hall : ∀ c ∈ cs.filter qualifies,
      hasKey (runRefine (cs.filter qualifies) (ts, ⟨0, 0, 0⟩)).1
        c.verification_key = true := by
    intro c hc
    rw [runRefine_hasKey]
    have hany : ((cs.filter qualifies).any
        fun c2 => c2.verification_key == c.verification_key) = true :=
      List.any_eq_true.mpr ⟨c, hc, by simp⟩
    simp [hany]
  have h2 := runRefine_all_present (cs.filter qualifies) _ ⟨0, 0, 0⟩ hall
  have hp := runRefine_processed (cs.filter qualifies) ts ⟨0, 0, 0⟩
  unfold refineCostsToTransactions
  rw [h2]
  simp at hp ⊢
  omega

/-- C3: every refine call returns counts with processed equal to created plus
skipped, and processed is the number of cost records matching the inclusion
predicate. -/
theorem c3_refine_counts (cs : List CostRecord) (ts : List TransactionRecord) :
    (refineCostsToTransactions cs ts).2.processed =
        (refineCostsToTransactions cs ts).2.created +
          (refineCostsToTransactions cs ts).2.skipped ∧
    (refineCostsToTransactions cs ts).2.processed = (cs.filter qualifies).length := by
  have hp := runRefine_processed (cs.filter qualifies) ts ⟨0, 0, 0⟩
  have hcs := runRefine_created_skipped (cs.filter qualifies) ts ⟨0, 0, 0⟩
  simp at hp hcs
  unfold refineCostsToTransactions
  omega

/-- C4: refine never creates a transaction from a cost record whose account
number has leading digit 0 to 3: every document of the refined store either
was already present, or is the promotion of a cost record of the scanned
store whose leading digit is 4 or more. -/
theorem c4_refine_inclusion (cs : List CostRecord) (ts : List TransactionRecord)
    (t : TransactionRecord) (h : t ∈ (refineCostsToTransactions cs ts).1) :
    t ∈ ts ∨ ∃ c, c ∈ cs ∧ 4 ≤ leadingDigit c.account_number ∧ t = toTransaction c := by
  unfold refineCostsToTransactions at h
  rcases runRefine_mem (cs.filter qualifies) ts ⟨0, 0, 0⟩ t h with h1 | ⟨c, hc, ht⟩
  · exact Or.inl h1
  · rcases List.mem_filter.mp hc with ⟨hcs, hq⟩
    refine Or.inr ⟨c, hcs, ?_, ht⟩
    simpa [qualifies] using hq

/-- Witness for C4 at a concrete refine run over one qualifying record. -/
theorem c4_refine_inclusion_witness :
    toTransaction (sampleCost "V1" 4010 none) ∈ ([] : List TransactionRecord) ∨
      ∃ c, c ∈ [sampleCost "V1" 4010 none] ∧ 4 ≤ leadingDigit c.account_number ∧
        toTransaction (sampleCost "V1" 4010 none) = toTransaction c :=
  c4_refine_inclusion [sampleCost "V1" 4010 none] [] _ (by decide)

theorem costCountKey_append_single (store : List CostRecord) (r : CostRecord)
    (k : String) :
    costCountKey (store ++ [r]) k =
      costCountKey store k + (if r.verification_key == k then 1 else 0) := by
  by_cases h : r.verification_key == k <;>
    simp [costCountKey, List.filter_append, List.filter_cons, h]

theorem costHasKey_false_costCountKey (store : List CostRecord) (k : String)
    (h : costHasKey store k = false) : costCountKey store k = 0 := by
  simp only [costHasKey, List.any_eq_false] at h
  simp only [costCountKey, List.length_eq_zero, List.filter_eq_nil_iff]
  intro c hc
  exact h c hc

theorem map_replace_absent (store : List CostRecord) (r : CostRecord)
    (h : costHasKey store r.verification_key = false) :
    (store.map fun c => if c.verification_key = r.verification_key then r else c) =
      store := by
  induction store with
  | nil => rfl
  | cons c store ih =>
      rw [costHasKey, List.any_cons, Bool.or_eq_false_iff] at h
      rcases h with ⟨h1, h2⟩
      have h1p : ¬ c.verification_key = r.verification_key := by simpa using h1
      rw [List.map_cons, if_neg h1p, ih h2]

/-- C5: two successive one-record uploads sharing a verification key, into a
store that does not contain the key yet: skip keeps the original document
unchanged and discards the second record; replace ends with the second
records field values in the same document position; keep ends with two
documents under the key. -/
theorem c5_duplicate_policies (store : List CostRecord) (r1 r2 : CostRecord)
    (hkey : r2.verification_key = r1.verification_key)
    (habs : costHasKey store r1.verification_key = false) :
    ingest .skip (ingest .skip store [r1]) [r2] = store ++ [r1] ∧
    ingest .replace (ingest .replace store [r1]) [r2] = store ++ [r2] ∧
    costCountKey (ingest .keep (ingest .keep store [r1]) [r2])
      r1.verification_key = 2 := by
  have h1 : costHasKey (store ++ [r1]) r2.verification_key = true := by
    rw [hkey]
    simp [costHasKey, List.any_append]
  have habs2 : costHasKey store r2.verification_key = false := by
    rw [hkey]; exact habs
  refine ⟨?_, ?_, ?_⟩
  · simp [ingest, resolveOne, habs, h1]
  · have e1 : ingest .replace store [r1] = store ++ [r1] := by
      simp [ingest, resolveOne, habs]
    have e2 : ingest .replace (store ++ [r1]) [r2] =
        (store ++ [r1]).map fun c =>
          if c.verification_key = r2.verification_key then r2 else c := by
      simp [ingest, resolveOne, h1]
    rw [e1, e2, List.map_append, map_replace_absent store r2 habs2]
    simp [hkey.symm]
  · show costCountKey ((store ++ [r1]) ++ [r2]) r1.verification_key = 2
    rw [costCountKey_append_single, costCountKey_append_single]
    have hz : costCountKey store r1.verification_key = 0 :=
      costHasKey_false_costCountKey store _ habs
    simp [hz, hkey]

/-- Witness for C5 at two concrete records sharing key V1 over the empty
store; the records differ in their transaction_info field. -/
theorem c5_duplicate_policies_witness :
    ingest .skip (ingest .skip [] [sampleCost "V1" 4010 (some "first")])
        [sampleCost "V1" 4010 (some "second")] =
      [] ++ [sampleCost "V1" 4010 (some "first")] ∧
    ingest .replace (ingest .replace [] [sampleCost "V1" 4010 (some "first")])
        [sampleCost "V1" 4010 (some "second")] =
      [] ++ [sampleCost "V1" 4010 (some "second")] ∧
    costCountKey (ingest .keep (ingest .keep [] [sampleCost "V1" 4010 (some "first")])
        [sampleCost "V1" 4010 (some "second")])
      (sampleCost "V1" 4010 (some "first")).verification_key = 2 :=
  c5_duplicate_policies [] (sampleCost "V1" 4010 (some "first"))
    (sampleCost "V1" 4010 (some "second")) rfl rfl

theorem bulkUpdateDocs_eq_map (text name : String) (ts : List TransactionRecord) :
    bulkUpdateDocs text name ts = ts.map fun t => docStep t (text, name) := rfl

theorem applyMappings_fst (m : List (String × String)) :
    ∀ ts : List TransactionRecord, (applyMappings m ts).1 = ts.map (docUpdate m) := by
  induction m with
  | nil =>
      intro ts
      have h0 : docUpdate ([] : List (String × String)) = fun t => t := rfl
      show ts = List.map (docUpdate []) ts
      rw [h0]
      simp
  | cons p rest ih =>
      intro ts
      have e : (applyMappings (p :: rest) ts).1 =
          (applyMappings rest (bulkUpdateDocs p.1 p.2 ts)).1 := rfl
      rw [e, ih, bulkUpdateDocs_eq_map, List.map_map]
      rfl

theorem docStep_info (t : TransactionRecord) (p : String × String) :
    (docStep t p).transaction_info = t.transaction_info := by
  unfold docStep
  split <;> rfl

theorem docUpdate_info (m : List (String × String)) :
    ∀ t : TransactionRecord, (docUpdate m t).transaction_info = t.transaction_info := by
  induction m with
  | nil => intro t; rfl
  | cons p rest ih =>
      intro t
      have e : docUpdate (p :: rest) t = docUpdate rest (docStep t p) := rfl
      rw [e, ih, docStep_info]

theorem docUpdate_no_match (m : List (String × String)) :
    ∀ t : TransactionRecord, (∀ p ∈ m, ¬ t.transaction_info = some p.1) →
    docUpdate m t = t := by
  induction m with
  | nil => intro t _; rfl
  | cons p rest ih =>
      intro t h
      have e : docUpdate (p :: rest) t = docUpdate rest (docStep t p) := rfl
      have hstep : docStep t p = t := by
        unfold docStep
        rw [if_neg (h p (List.mem_cons_self p rest))]
      rw [e, hstep]
      exact ih t fun q hq => h q (List.mem_cons_of_mem p hq)

theorem docUpdate_match (m : List (String × String)) :
    ∀ (t : TransactionRecord) (text name : String),
    (m.map Prod.fst).Nodup → (text, name) ∈ m → t.transaction_info = some text →
    (docUpdate m t).supplier_name = some name := by
  induction m with
  | nil => intro t text name _ hm _; cases hm
  | cons p rest ih =>
      intro t text name hnodup hm hinfo
      have e : docUpdate (p :: rest) t = docUpdate rest (docStep t p) := rfl
      rw [List.map_cons, List.nodup_cons] at hnodup
      rcases hnodup with ⟨hp1, hrest⟩
      rcases List.mem_cons.mp hm with heq | hmem
      · subst heq
        have hstep : docStep t (text, name) =
            { t with supplier_name := some name } := by
          unfold docStep
          rw [if_pos hinfo]
        rw [e, hstep]
        have hinfo2 : ({ t with supplier_name := some name } :
            TransactionRecord).transaction_info = some text := hinfo
        rw [docUpdate_no_match rest _ ?hno]
        case hno =>
          intro q hq hbad
          rw [hinfo2] at hbad
          have hq1 : text = q.1 := Option.some_inj.mp hbad
          apply hp1
          show text ∈ List.map Prod.fst rest
          rw [hq1]
          exact List.mem_map_of_mem Prod.fst hq
      · have hne : ¬ t.transaction_info = some p.1 := by
          intro hbad
          rw [hinfo] at hbad
          have htext : text = p.1 := Option.some_inj.mp hbad
          apply hp1
          rw [← htext]
          exact List.mem_map_of_mem Prod.fst hmem
        have hstep : docStep t p = t := by
          unfold docStep
          rw [if_neg hne]
        rw [e, hstep]
        exact ih t text name hrest hmem hinfo

theorem enrich_store_eq_map (key : String) (m : List (String × String))
    (ts : List TransactionRecord) (hkeys : ∀ p ∈ m, p.1 ∈ uniqueTexts ts) :
    (enrich (some key) (some m) ts).1 = ts.map (docUpdate m) := by
  unfold enrich
  by_cases hts : uniqueTexts ts = []
  · have hm : m = [] := by
      cases m with
      | nil => rfl
      | cons p rest =>
          exact absurd (hkeys p (List.mem_cons_self p rest)) (by simp [hts])
    subst hm
    have h0 : docUpdate ([] : List (String × String)) = fun t => t := rfl
    simp [hts, h0]
  · simp [hts, applyMappings_fst]

theorem mem_zip_map (f : TransactionRecord → TransactionRecord) :
    ∀ (ts : List TransactionRecord) (pr : TransactionRecord × TransactionRecord),
    pr ∈ ts.zip (ts.map f) → pr.2 = f pr.1 := by
  intro ts
  induction ts with
  | nil => intro pr h; cases h
  | cons t ts ih =>
      intro pr h
      rw [List.map_cons, List.zip_cons_cons] at h
      rcases List.mem_cons.mp h with heq | hmem
      · rw [heq]
      · exact ih pr hmem

/-- C6: after a successful enrich, every transaction whose transaction_info
equals a text of the returned mapping carries the mapped supplier name,
however many transactions share that text; transaction_info fields are
untouched; and a transaction matching no mapped text keeps its previous
supplier_name, so none stays none. The hypotheses record the classifier
contract of spec 4.4: the mapping keys are the distinct texts the classifier
was called on, hence pairwise distinct and drawn from the stores distinct
transaction_info values. -/
theorem c6_enrich_coverage (key : String) (m : List (String × String))
    (ts : List TransactionRecord)
    (hnodup : (m.map Prod.fst).Nodup)
    (hkeys : ∀ p ∈ m, p.1 ∈ uniqueTexts ts) :
    (enrich (some key) (some m) ts).1.length = ts.length ∧
    ∀ pr ∈ ts.zip (enrich (some key) (some m) ts).1,
      pr.2.transaction_info = pr.1.transaction_info ∧
      (∀ text name, (text, name) ∈ m → pr.1.transaction_info = some text →
        pr.2.supplier_name = some name) ∧
      ((∀ p ∈ m, ¬ pr.1.transaction_info = some p.1) →
        pr.2.supplier_name = pr.1.supplier_name) := by
  have hmap := enrich_store_eq_map key m ts hkeys
  constructor
  · rw [hmap, List.length_map]
  · intro pr hpr
    rw [hmap] at hpr
    have h2 := mem_zip_map (docUpdate m) ts pr hpr
    refine ⟨?_, ?_, ?_⟩
    · rw [h2, docUpdate_info]
    · intro text name hm hinfo
      rw [h2]
      exact docUpdate_match m pr.1 text name hnodup hm hinfo
    · intro hno
      rw [h2, docUpdate_no_match m pr.1 hno]

/-- Witness for C6 at a concrete store of two transactions sharing one text
and a singleton mapping. -/
theorem c6_enrich_coverage_witness :
    (enrich (some "k") (some [("SWISH 123456789", "Swish Payment")]) tsSwish).1.length =
      tsSwish.length :=
  (c6_enrich_coverage "k" [("SWISH 123456789", "Swish Payment")] tsSwish
    (by decide) (by decide)).1

example :
    ((enrich (some "k") (some [("SWISH 123456789", "Swish Payment")]) tsSwish).1.map
      fun t => t.supplier_name) = [some "Swish Payment", some "Swish Payment"] := by
  decide

theorem enrich_some_none (key : String) (ts : List TransactionRecord)
    (hts : ¬ uniqueTexts ts = []) :
    enrich (some key) none ts =
      (ts, Except.error "classification service call failed") := by
  unfold enrich
  simp [hts]

theorem enrich_some_none_empty (key : String) (ts : List TransactionRecord)
    (hts : uniqueTexts ts = []) :
    enrich (some key) none ts = (ts, Except.ok ⟨0, 0, []⟩) := by
  unfold enrich
  simp [hts]

/-- C7: with the credential missing, enrich fails with an error (surfaced as
HTTP 500), leaves the transaction store unchanged, and its outcome does not
depend on the classifier response at all, so it fails before any external
call; with the credential present but the classifier call failing (there are
texts to classify, so a call happens), the whole enrich invocation fails with
an error and the store is unchanged, no partial mapping applied. -/
theorem c7_enrich_failures (key : String)
    (resp resp2 : Option (List (String × String))) (ts : List TransactionRecord) :
    (enrich none resp ts).1 = ts ∧
    (∃ e, (enrich none resp ts).2 = Except.error e) ∧
    enrich none resp ts = enrich none resp2 ts ∧
    (enrich (some key) none ts).1 = ts ∧
    (¬ uniqueTexts ts = [] → ∃ e, (enrich (some key) none ts).2 = Except.error e) := by
  refine ⟨rfl, ⟨"OPENROUTER_API_KEY is not set", rfl⟩, rfl, ?_, ?_⟩
  · by_cases hts : uniqueTexts ts = []
    · rw [enrich_some_none_empty key ts hts]
    · rw [enrich_some_none key ts hts]
  · intro hts
    rw [enrich_some_none key ts hts]
    exact ⟨_, rfl⟩

/-- C8: the duplicate_strategy upload field is optional with default keep and
ranges over exactly keep, skip and replace: an upload that omits the field,
as the dashboards handleUpload does by appending only the file, is processed
under keep; the import modals selectable options are exactly these three
strings with keep initially selected, and each option parses to the
corresponding strategy. -/
theorem c8_duplicate_strategy_parameter :
    parseDuplicateStrategy none = some DuplicateStrategy.keep ∧
    parseDuplicateStrategy dashboardUploadStrategyField = some DuplicateStrategy.keep ∧
    modalInitialDuplicateStrategy = "keep" ∧
    modalDuplicateStrategyOptions = ["keep", "skip", "replace"] ∧
    parseDuplicateStrategy (modalUploadStrategyField "keep") =
      some DuplicateStrategy.keep ∧
    parseDuplicateStrategy (modalUploadStrategyField "skip") =
      some DuplicateStrategy.skip ∧
    parseDuplicateStrategy (modalUploadStrategyField "replace") =
      some DuplicateStrategy.replace ∧
    ∀ s : String, (parseDuplicateStrategy (some s)).isSome = true ↔
      s ∈ modalDuplicateStrategyOptions := by
  refine ⟨rfl, rfl, rfl, rfl, by decide, by decide, by decide, ?_⟩
  intro s
  constructor
  · intro h
    by_cases h1 : s = "keep"
    · simp [modalDuplicateStrategyOptions, h1]
    · by_cases h2 : s = "skip"
      · simp [modalDuplicateStrategyOptions, h2]
      · by_cases h3 : s = "replace"
        · simp [modalDuplicateStrategyOptions, h3]
        · exfalso
          simp [parseDuplicateStrategy, h1, h2, h3] at h
  · intro h
    fin_cases h <;> decide

/-- C9: in both the dashboard and the transactions views, handlePageChange
sets the page to p exactly when p lies between 1 and the last page (the
ceiling of totalItems over the page size of 20) and leaves the page
unchanged otherwise; consequently a page that is at least 1 stays at least 1,
and a page within bounds never moves beyond the last page. -/
theorem c9_page_change_bounds (totalItems : Nat) (cur p : Int) :
    (1 ≤ p ∧ p ≤ (totalPages totalItems : Int) →
      dashboardHandlePageChange totalItems cur p = p ∧
      transactionsHandlePageChange totalItems cur p = p) ∧
    (¬ (1 ≤ p ∧ p ≤ (totalPages totalItems : Int)) →
      dashboardHandlePageChange totalItems cur p = cur ∧
      transactionsHandlePageChange totalItems cur p = cur) ∧
    (1 ≤ cur →
      1 ≤ dashboardHandlePageChange totalItems cur p ∧
      1 ≤ transactionsHandlePageChange totalItems cur p) ∧
    (1 ≤ cur ∧ cur ≤ (totalPages totalItems : Int) →
      dashboardHandlePageChange totalItems cur p ≤ (totalPages totalItems : Int) ∧
      transactionsHandlePageChange totalItems cur p ≤ (totalPages totalItems : Int)) := by
  unfold dashboardHandlePageChange transactionsHandlePageChange
  by_cases h : 1 ≤ p ∧ p ≤ (totalPages totalItems : Int) <;> simp [h]

/-- C10: in both the dashboard and the transactions views, handleSort sets
the sort key to the clicked key, resets the current page to 1, and sets the
direction to desc exactly when the clicked key is already the sort key with
ascending direction, and to asc in every other case. -/
theorem c10_sort_toggle (cur : SortConfig) (key : String) :
    ((dashboardHandleSort cur key).1.direction = SortDirection.desc ↔
      (cur.key = key ∧ cur.direction = SortDirection.asc)) ∧
    (dashboardHandleSort cur key).1.key = key ∧
    (dashboardHandleSort cur key).2 = 1 ∧
    ((transactionsHandleSort cur key).1.direction = SortDirection.desc ↔
      (cur.key = key ∧ cur.direction = SortDirection.asc)) ∧
    (transactionsHandleSort cur key).1.key = key ∧
    (transactionsHandleSort cur key).2 = 1 := by
  unfold dashboardHandleSort transactionsHandleSort
  by_cases h : cur.key = key ∧ cur.direction = SortDirection.asc <;> simp [h]

example : leadingDigit 4010 = 4 := by decide

example : qualifies (sampleCost "V1" 4010 none) = true := by decide

example : qualifies (sampleCost "V1" 3010 none) = false := by decide

example :
    (refineCostsToTransactions [sampleCost "V1" 4010 none, sampleCost "V2" 3010 none] []).2 =
      ⟨1, 1, 0⟩ := by decide
